import Mathlib

/-!
Shallow embedding of the payout-planning core of `app/trc20wallet.py`.

Amounts are modelled as rationals (`ℚ`), a faithful superset of Python's
exact `Decimal` arithmetic.  In-place mutation of the wallet's account
objects becomes explicit state passing: every operation that mutates
`self.wallet.accounts` takes the account list and returns the updated one.
Network effects (signing, broadcasting, waiting) in `seed_payout_fees` are
abstracted by an oracle `net : Account → Except String String` returning a
transaction id or the raised exception's message.
-/

/-- `Account` dataclass of `trc20wallet.py` (the `private_key` property is a
database lookup and carries no state, so it is not modelled). -/
structure Account where
  addr : String
  tokens : ℚ
  currency : ℚ
  bandwidth : ℤ
  bandwidth_limit : ℤ
deriving DecidableEq, Repr

/-- One entry of the `payout_list` handed to `PayoutStrategy`:
a dict with keys `dest` and `amount`. -/
structure Payout where
  dest : String
  amount : ℚ
deriving DecidableEq, Repr

/-- One transfer dict appended by `PayoutStrategy.step`:
keys `src` (a `copy` of the account at allocation time), `dst`, `amount`,
`debug`. -/
structure Transfer where
  src : Account
  dst : String
  amount : ℚ
  debug : String
deriving DecidableEq, Repr

/-- A successful result of the `seed` worker in `seed_payout_fees`:
the dict `{'addr': acc, 'txid': txn.txid}`. -/
structure SeedResult where
  addr : Account
  txid : String
deriving DecidableEq, Repr

/-- `Trc20Wallet.tokens`: sum of `account.tokens` over all accounts. -/
def walletTokens (accounts : List Account) : ℚ :=
  (accounts.map Account.tokens).sum

/-- `Trc20Wallet.accounts_with_tokens`: the accounts with `tokens > 0`,
in their current order. -/
def accountsWithTokens (accounts : List Account) : List Account :=
  accounts.filter (fun acc => 0 < acc.tokens)

/-- Total of the payout list, `sum([payout['amount'] for payout in payout_list])`. -/
def payoutTotal (payouts : List Payout) : ℚ :=
  (payouts.map Payout.amount).sum

/-- Error raised by `step` on a non-positive amount. -/
def invalidAmountMsg : String := "Invalid amount porivded for payout"

/-- Error raised by the defensive overrun branch of the greedy tier. -/
def allocationOverrunMsg : String := "Collected too much! This should not happen!"

/-- Error raised when the greedy tier exhausts all accounts short of the target. -/
def outOfAccountsMsg : String :=
  "Out of accounts while collecting payout amount! This should not happen!"

/-- Error raised by `check_payout_list` on a zero total. -/
def emptyPayoutMsg : String := "Payout amount can not be 0"

/-- Error raised by `check_payout_list` on an over-budget total. -/
def insufficientFundsMsg : String := "Not enough tokens to complete payout"

/-- Error raised by `seed_payout_fees` when the fee-deposit balance is too low. -/
def insufficientSeedMsg : String := "Fee deposit account has not enought currency"

/-- Embedding glue: an account that stays at its list position while the scan
continues on the tail; the tail's transfers and outcome pass through. -/
def consAccountO (acc : Account) :
    Option (List Transfer × List Account) → Option (List Transfer × List Account)
  | some (ts, rest2) => some (ts, acc :: rest2)
  | none => none

/-- Embedding glue, `Except` version of `consAccountO`. -/
def consAccount (acc : Account) :
    Except String (List Transfer × List Account) →
    Except String (List Transfer × List Account)
  | Except.ok (t, r) => Except.ok (t, acc :: r)
  | Except.error e => Except.error e

/-- Tier 1 of `PayoutStrategy.step` (the first `for` loop): scan the accounts,
visiting only those with `tokens > 0`; on the first whose balance equals
`amount`, emit one `'1 to 1'` transfer with a copy of the account and subtract
`amount` from the live account.  Returns `none` when no account matches. -/
def exactMatchTier (dst : String) (amount : ℚ) :
    List Account → Option (List Transfer × List Account)
  | [] => none
  | acc :: rest =>
    if 0 < acc.tokens ∧ acc.tokens = amount then
      some ([{ src := acc, dst := dst, amount := amount, debug := "1 to 1" }],
            { acc with tokens := acc.tokens - amount } :: rest)
    else
      consAccountO acc (exactMatchTier dst amount rest)

/-- Tier 2 of `PayoutStrategy.step` (the `amount == self.wallet.tokens` branch):
for every account with `tokens > 0`, emit an `'all to 1'` transfer of its whole
balance and zero it. -/
def fullSweepTier (dst : String) : List Account → List Transfer × List Account
  | [] => ([], [])
  | acc :: rest =>
    if 0 < acc.tokens then
      ({ src := acc, dst := dst, amount := acc.tokens, debug := "all to 1" } ::
         (fullSweepTier dst rest).1,
       { acc with tokens := 0 } :: (fullSweepTier dst rest).2)
    else
      ((fullSweepTier dst rest).1, acc :: (fullSweepTier dst rest).2)

/-- Tier 3 of `PayoutStrategy.step` (the greedy accumulation loop), iterating
over the accounts with `tokens > 0` carrying `collected_amount` and the
transfer list built so far.  An account holding more than the remaining
shortfall `to_collect = amount - collected` yields an `'acc partial'` transfer
of the shortfall; otherwise its whole balance is drained with `'acc full'`.
`collected > amount` raises the defensive `allocationOverrunMsg`; running out
of accounts short of `amount` raises `outOfAccountsMsg`. -/
def greedyTier (dst : String) (amount : ℚ) (collected : ℚ) (ts : List Transfer) :
    List Account → Except String (List Transfer × List Account)
  | [] =>
    if collected = amount then Except.ok (ts, [])
    else Except.error outOfAccountsMsg
  | acc :: rest =>
    if 0 < acc.tokens then
      if collected = amount then Except.ok (ts, acc :: rest)
      else if collected < amount then
        if amount - collected < acc.tokens then
          consAccount { acc with tokens := acc.tokens - (amount - collected) }
            (greedyTier dst amount (collected + (amount - collected))
              (ts ++ [{ src := acc, dst := dst, amount := amount - collected,
                        debug := "acc partial" }]) rest)
        else
          consAccount { acc with tokens := 0 }
            (greedyTier dst amount (collected + acc.tokens)
              (ts ++ [{ src := acc, dst := dst, amount := acc.tokens,
                        debug := "acc full" }]) rest)
      else Except.error allocationOverrunMsg
    else
      consAccount acc (greedyTier dst amount collected ts rest)

/-- `PayoutStrategy.step(dst, amount)`: reject non-positive amounts, then try
the exact-match tier, the full-sweep tier (when `amount` equals the wallet's
total token balance), and finally the greedy tier.  Returns the transfer group
together with the updated account list. -/
def step (dst : String) (amount : ℚ) (accounts : List Account) :
    Except String (List Transfer × List Account) :=
  if amount ≤ 0 then Except.error invalidAmountMsg
  else
    match exactMatchTier dst amount accounts with
    | some res => Except.ok res
    | none =>
      if amount = walletTokens accounts then Except.ok (fullSweepTier dst accounts)
      else greedyTier dst amount 0 [] accounts

/-- `PayoutStrategy.generate_steps`: run `step` for each payout in list order,
threading the mutated account list, and collect the transfer groups in request
order (the successive appends to `self.steps`). -/
def generateSteps (payouts : List Payout) (accounts : List Account) :
    Except String (List (List Transfer) × List Account) :=
  match payouts with
  | [] => Except.ok ([], accounts)
  | p :: rest =>
    match step p.dest p.amount accounts with
    | Except.error e => Except.error e
    | Except.ok (ts, accounts2) =>
      match generateSteps rest accounts2 with
      | Except.ok (groups, accounts3) => Except.ok (ts :: groups, accounts3)
      | Except.error e => Except.error e

/-- `PayoutStrategy.check_payout_list`, run by the constructor: raise on a
zero (falsy) total, then on a total exceeding the wallet's token balance. -/
def check_payout_list (payouts : List Payout) (accounts : List Account) :
    Except String Unit :=
  if payoutTotal payouts = 0 then Except.error emptyPayoutMsg
  else if walletTokens accounts < payoutTotal payouts then Except.error insufficientFundsMsg
  else Except.ok ()

/-- `len([transfer for transfers in self.steps for transfer in transfers])`. -/
def transferCount (steps : List (List Transfer)) : ℕ :=
  steps.flatten.length

/-- `PayoutStrategy.estimate_fee`: if no steps were generated yet, generate
them first from the stored payout list; then
`fee = accounts_num * (config.TX_FEE + 2)` with the flattened transfer count as
`accounts_num`.  The `2` is the hardcoded local `activation_and_transfer_fee`. -/
def estimate_fee (txFee : ℚ) (payouts : List Payout) (accounts : List Account)
    (steps : List (List Transfer)) : Except String (ℕ × ℚ) :=
  match (if steps.isEmpty then Except.map Prod.fst (generateSteps payouts accounts)
         else Except.ok steps) with
  | Except.error e => Except.error e
  | Except.ok s => Except.ok (transferCount s, (transferCount s : ℚ) * (txFee + 2))

/-- `accounts_need_seeding`: the `src` of every transfer of every group whose
currency balance is below `config.TX_FEE`, in plan order (a list, so the same
address may occur several times). -/
def accountsNeedSeeding (txFee : ℚ) (steps : List (List Transfer)) : List Account :=
  (steps.flatten.map Transfer.src).filter (fun acc => acc.currency < txFee)

/-- `need_currency = len(accounts_need_seeding) * config.TX_FEE`. -/
def seedNeedCurrency (txFee : ℚ) (steps : List (List Transfer)) : ℚ :=
  ((accountsNeedSeeding txFee steps).length : ℚ) * txFee

/-- The `seed` worker of `seed_payout_fees`: on success return the
`{'addr': acc, 'txid': ...}` dict, on any exception log it and fall through,
returning Python's `None` (here `none`). -/
def seedOne (net : Account → Except String String) (acc : Account) :
    Option SeedResult :=
  match net acc with
  | Except.ok txid => some { addr := acc, txid := txid }
  | Except.error _ => none

/-- `PayoutStrategy.seed_payout_fees`: raise when the fee-deposit balance is
below `need_currency`, otherwise map the `seed` worker over
`accounts_need_seeding` and return the list of per-account results. -/
def seed_payout_fees (txFee depositBalance : ℚ)
    (net : Account → Except String String) (steps : List (List Transfer)) :
    Except String (List (Option SeedResult)) :=
  if depositBalance < seedNeedCurrency txFee steps then Except.error insufficientSeedMsg
  else Except.ok ((accountsNeedSeeding txFee steps).map (seedOne net))

/-- Modelled from the spec (not the code), for comparison in claim C2: the
"sum of shortfalls (`feeThreshold - nativeBalance` for each under-funded
account)". -/
def specSumShortfalls (txFee : ℚ) (steps : List (List Transfer)) : ℚ :=
  ((accountsNeedSeeding txFee steps).map (fun acc => txFee - acc.currency)).sum

/-- All account fields other than `tokens` agree. -/
def sameFrame (a b : Account) : Prop :=
  a.addr = b.addr ∧ a.currency = b.currency ∧
  a.bandwidth = b.bandwidth ∧ a.bandwidth_limit = b.bandwidth_limit

/-! Concrete inputs used by the witnesses and counterexamples below. -/

def w1Payouts : List Payout := [⟨"X", 70⟩, ⟨"Y", 30⟩]
def w1Accounts : List Account := [⟨"A", 100, 0, 0, 1500⟩]
def w1Plan : List (List Transfer) :=
  [[{ src := ⟨"A", 100, 0, 0, 1500⟩, dst := "X", amount := 70, debug := "acc partial" }],
   [{ src := ⟨"A", 30, 0, 0, 1500⟩, dst := "Y", amount := 30, debug := "1 to 1" }]]
def w1Rest : List Account := [⟨"A", 0, 0, 0, 1500⟩]
def w9Accounts : List Account := [⟨"B", 60, 0, 0, 1500⟩, ⟨"A", 100, 0, 0, 1500⟩]
def c4Payouts : List Payout := [⟨"X", -1⟩]
def c4Accounts : List Account := [⟨"A", 5, 0, 0, 1500⟩]
def c3Plan : List (List Transfer) :=
  [[{ src := ⟨"A", 0, 0, 0, 1500⟩, dst := "X", amount := 1, debug := "acc full" }]]
def c2Plan : List (List Transfer) :=
  [[{ src := ⟨"A", 0, 5, 0, 1500⟩, dst := "X", amount := 1, debug := "acc full" }]]
def c6AccA : Account := ⟨"A", 50, 0, 0, 1500⟩
def c6AccB : Account := ⟨"B", 50, 3, 0, 1500⟩
def c6Plan : List (List Transfer) :=
  [[{ src := c6AccA, dst := "X", amount := 50, debug := "all to 1" },
    { src := c6AccB, dst := "X", amount := 50, debug := "all to 1" }]]
def c6Net : Account → Except String String :=
  fun acc => if acc.addr = "A" then Except.error "boom" else Except.ok "tx2"

example : step "X" 100 [⟨"A", 100, 0, 0, 1500⟩, ⟨"B", 60, 0, 0, 1500⟩] =
    Except.ok ([{ src := ⟨"A", 100, 0, 0, 1500⟩, dst := "X", amount := 100, debug := "1 to 1" }],
               [⟨"A", 0, 0, 0, 1500⟩, ⟨"B", 60, 0, 0, 1500⟩]) := by
  norm_num [step, exactMatchTier, fullSweepTier, greedyTier, walletTokens, consAccount, consAccountO]

example : step "X" 160 [⟨"A", 100, 0, 0, 1500⟩, ⟨"B", 60, 0, 0, 1500⟩] =
    Except.ok ([{ src := ⟨"A", 100, 0, 0, 1500⟩, dst := "X", amount := 100, debug := "all to 1" },
                { src := ⟨"B", 60, 0, 0, 1500⟩, dst := "X", amount := 60, debug := "all to 1" }],
               [⟨"A", 0, 0, 0, 1500⟩, ⟨"B", 0, 0, 0, 1500⟩]) := by
  norm_num [step, exactMatchTier, fullSweepTier, greedyTier, walletTokens, consAccount, consAccountO]

example : step "X" 130 [⟨"A", 100, 0, 0, 1500⟩, ⟨"B", 60, 0, 0, 1500⟩, ⟨"C", 40, 0, 0, 1500⟩] =
    Except.ok ([{ src := ⟨"A", 100, 0, 0, 1500⟩, dst := "X", amount := 100, debug := "acc full" },
                { src := ⟨"B", 60, 0, 0, 1500⟩, dst := "X", amount := 30, debug := "acc partial" }],
               [⟨"A", 0, 0, 0, 1500⟩, ⟨"B", 30, 0, 0, 1500⟩, ⟨"C", 40, 0, 0, 1500⟩]) := by
  norm_num [step, exactMatchTier, fullSweepTier, greedyTier, walletTokens, consAccount, consAccountO]

theorem consAccountO_eq_some (acc : Account) (o : Option (List Transfer × List Account))
    (ts : List Transfer) (r : List Account) :
    consAccountO acc o = some (ts, r) ↔ ∃ r0, o = some (ts, r0) ∧ r = acc :: r0 := by
  cases o with
  | none => simp [consAccountO]
  | some p =>
    obtain ⟨ts0, r0⟩ := p
    simp only [consAccountO, Option.some.injEq, Prod.mk.injEq]
    constructor
    · rintro ⟨h1, h2⟩
      exact ⟨r0, ⟨h1, rfl⟩, h2.symm⟩
    · rintro ⟨r1, ⟨h1, h2⟩, h3⟩
      exact ⟨h1, by rw [h3, h2]⟩

theorem consAccountO_eq_none (acc : Account) (o : Option (List Transfer × List Account)) :
    consAccountO acc o = none ↔ o = none := by
  cases o with
  | none => simp [consAccountO]
  | some p => obtain ⟨ts0, r0⟩ := p; simp [consAccountO]

theorem consAccount_eq_ok (acc : Account) (e : Except String (List Transfer × List Account))
    (ts : List Transfer) (r : List Account) :
    consAccount acc e = Except.ok (ts, r) ↔ ∃ r0, e = Except.ok (ts, r0) ∧ r = acc :: r0 := by
  cases e with
  | error msg => simp [consAccount]
  | ok p =>
    obtain ⟨ts0, r0⟩ := p
    simp only [consAccount, Except.ok.injEq, Prod.mk.injEq]
    constructor
    · rintro ⟨h1, h2⟩
      exact ⟨r0, ⟨h1, rfl⟩, h2.symm⟩
    · rintro ⟨r1, ⟨h1, h2⟩, h3⟩
      exact ⟨h1, by rw [h3, h2]⟩

theorem consAccount_eq_error (acc : Account) (e : Except String (List Transfer × List Account))
    (msg : String) :
    consAccount acc e = Except.error msg ↔ e = Except.error msg := by
  cases e with
  | error m => simp [consAccount]
  | ok p => obtain ⟨ts0, r0⟩ := p; simp [consAccount]

theorem exactMatchTier_eq_some (dst : String) (amount : ℚ) (accs : List Account)
    (ts : List Transfer) (accs2 : List Account)
    (h : exactMatchTier dst amount accs = some (ts, accs2)) :
    ∃ pre a post, accs = pre ++ a :: post ∧ 0 < a.tokens ∧ a.tokens = amount ∧
      (∀ b ∈ pre, ¬(0 < b.tokens ∧ b.tokens = amount)) ∧
      ts = [{ src := a, dst := dst, amount := amount, debug := "1 to 1" }] ∧
      accs2 = pre ++ { a with tokens := a.tokens - amount } :: post := by
  induction accs generalizing ts accs2 with
  | nil => simp [exactMatchTier] at h
  | cons acc rest ih =>
    rw [exactMatchTier] at h
    by_cases hc : 0 < acc.tokens ∧ acc.tokens = amount
    · rw [if_pos hc] at h
      simp only [Option.some.injEq, Prod.mk.injEq] at h
      obtain ⟨h1, h2⟩ := h
      exact ⟨[], acc, rest, by simp, hc.1, hc.2, by simp, h1.symm, by simp [h2.symm]⟩
    · rw [if_neg hc, consAccountO_eq_some] at h
      obtain ⟨r0, hrec, hr⟩ := h
      obtain ⟨pre, a, post, hsplit, hpos, heq, hpre, hts, haccs⟩ := ih ts r0 hrec
      refine ⟨acc :: pre, a, post, by rw [hsplit]; rfl, hpos, heq, ?_, hts, ?_⟩
      · intro b hb
        rcases List.mem_cons.mp hb with hb | hb
        · rw [hb]; exact hc
        · exact hpre b hb
      · rw [hr, haccs]; rfl

theorem exactMatchTier_ne_none (dst : String) (amount : ℚ) (accs : List Account)
    (a : Account) (ha : a ∈ accs) (hpos : 0 < a.tokens) (heq : a.tokens = amount) :
    exactMatchTier dst amount accs ≠ none := by
  induction accs with
  | nil => simp at ha
  | cons acc rest ih =>
    rw [exactMatchTier]
    by_cases hc : 0 < acc.tokens ∧ acc.tokens = amount
    · rw [if_pos hc]; simp
    · rw [if_neg hc, Ne, consAccountO_eq_none]
      rcases List.mem_cons.mp ha with hb | hb
      · exact absurd ⟨hb ▸ hpos, hb ▸ heq⟩ hc
      · exact ih hb

theorem greedyTier_sum (dst : String) (amount : ℚ) (accs : List Account) :
    ∀ collected ts t r,
      greedyTier dst amount collected ts accs = Except.ok (t, r) →
      (t.map Transfer.amount).sum = (ts.map Transfer.amount).sum + (amount - collected) := by
  induction accs with
  | nil =>
    intro collected ts t r h
    rw [greedyTier] at h
    split_ifs at h with hc
    · simp only [Except.ok.injEq, Prod.mk.injEq] at h
      rw [← h.1, hc]; ring
  | cons acc rest ih =>
    intro collected ts t r h
    rw [greedyTier] at h
    split_ifs at h with h1 h2 h3 h4
    · simp only [Except.ok.injEq, Prod.mk.injEq] at h
      rw [← h.1, h2]; ring
    · rw [consAccount_eq_ok] at h
      obtain ⟨r0, hrec, hr⟩ := h
      have hi := ih (collected + (amount - collected)) _ t r0 hrec
      simp only [List.map_append, List.sum_append, List.map_cons, List.map_nil,
        List.sum_cons, List.sum_nil] at hi
      rw [hi]; ring
    · rw [consAccount_eq_ok] at h
      obtain ⟨r0, hrec, hr⟩ := h
      have hi := ih (collected + acc.tokens) _ t r0 hrec
      simp only [List.map_append, List.sum_append, List.map_cons, List.map_nil,
        List.sum_cons, List.sum_nil] at hi
      rw [hi]; ring
    · rw [consAccount_eq_ok] at h
      obtain ⟨r0, hrec, hr⟩ := h
      exact ih collected ts t r0 hrec

theorem greedyTier_no_overrun (dst : String) (amount : ℚ) (accs : List Account) :
    ∀ collected ts, collected ≤ amount →
      greedyTier dst amount collected ts accs ≠ Except.error allocationOverrunMsg := by
  induction accs with
  | nil =>
    intro collected ts hle
    rw [greedyTier]
    split_ifs with hc
    · simp
    · simp only [ne_eq, Except.error.injEq]
      intro hmsg
      exact absurd hmsg (by decide)
  | cons acc rest ih =>
    intro collected ts hle
    rw [greedyTier]
    split_ifs with h1 h2 h3 h4
    · simp
    · simp only [ne_eq, consAccount_eq_error]
      exact ih _ _ (by linarith)
    · simp only [ne_eq, consAccount_eq_error]
      have h5 : acc.tokens ≤ amount - collected := le_of_not_lt h4
      exact ih _ _ (by linarith)
    · exact absurd (lt_of_le_of_ne hle h2) h3
    · simp only [ne_eq, consAccount_eq_error]
      exact ih collected ts hle

theorem greedyTier_amount_le (dst : String) (amount : ℚ) (accs : List Account) :
    ∀ collected ts t r,
      (∀ x ∈ ts, x.amount ≤ x.src.tokens) →
      greedyTier dst amount collected ts accs = Except.ok (t, r) →
      ∀ x ∈ t, x.amount ≤ x.src.tokens := by
  induction accs with
  | nil =>
    intro collected ts t r hts h
    rw [greedyTier] at h
    split_ifs at h with hc
    · simp only [Except.ok.injEq, Prod.mk.injEq] at h
      rw [← h.1]; exact hts
  | cons acc rest ih =>
    intro collected ts t r hts h
    rw [greedyTier] at h
    split_ifs at h with h1 h2 h3 h4
    · simp only [Except.ok.injEq, Prod.mk.injEq] at h
      rw [← h.1]; exact hts
    · rw [consAccount_eq_ok] at h
      obtain ⟨r0, hrec, hr⟩ := h
      refine ih _ _ t r0 ?_ hrec
      intro x hx
      rcases List.mem_append.mp hx with hx | hx
      · exact hts x hx
      · rw [List.mem_singleton.mp hx]
        exact le_of_lt h4
    · rw [consAccount_eq_ok] at h
      obtain ⟨r0, hrec, hr⟩ := h
      refine ih _ _ t r0 ?_ hrec
      intro x hx
      rcases List.mem_append.mp hx with hx | hx
      · exact hts x hx
      · rw [List.mem_singleton.mp hx]
    · rw [consAccount_eq_ok] at h
      obtain ⟨r0, hrec, hr⟩ := h
      exact ih collected ts t r0 hts hrec

theorem greedyTier_nonneg (dst : String) (amount : ℚ) (accs : List Account) :
    ∀ collected ts t r,
      (∀ a ∈ accs, 0 ≤ a.tokens) →
      greedyTier dst amount collected ts accs = Except.ok (t, r) →
      ∀ a ∈ r, 0 ≤ a.tokens := by
  induction accs with
  | nil =>
    intro collected ts t r hacc h
    rw [greedyTier] at h
    split_ifs at h with hc
    · simp only [Except.ok.injEq, Prod.mk.injEq] at h
      rw [← h.2]; simp
  | cons acc rest ih =>
    intro collected ts t r hacc h
    rw [greedyTier] at h
    split_ifs at h with h1 h2 h3 h4
    · simp only [Except.ok.injEq, Prod.mk.injEq] at h
      rw [← h.2]; exact hacc
    · rw [consAccount_eq_ok] at h
      obtain ⟨r0, hrec, hr⟩ := h
      rw [hr]
      intro a ha
      rcases List.mem_cons.mp ha with ha | ha
      · rw [ha]
        show (0:ℚ) ≤ acc.tokens - (amount - collected)
        linarith
      · exact ih _ _ t r0 (fun b hb => hacc b (List.mem_cons_of_mem acc hb)) hrec a ha
    · rw [consAccount_eq_ok] at h
      obtain ⟨r0, hrec, hr⟩ := h
      rw [hr]
      intro a ha
      rcases List.mem_cons.mp ha with ha | ha
      · rw [ha]
      · exact ih _ _ t r0 (fun b hb => hacc b (List.mem_cons_of_mem acc hb)) hrec a ha
    · rw [consAccount_eq_ok] at h
      obtain ⟨r0, hrec, hr⟩ := h
      rw [hr]
      intro a ha
      rcases List.mem_cons.mp ha with ha | ha
      · rw [ha]; exact hacc acc (List.mem_cons_self acc rest)
      · exact ih collected ts t r0 (fun b hb => hacc b (List.mem_cons_of_mem acc hb)) hrec a ha

theorem sameFrame_refl (a : Account) : sameFrame a a :=
  ⟨rfl, rfl, rfl, rfl⟩

theorem sameFrame_update (a : Account) (x : ℚ) : sameFrame a { a with tokens := x } :=
  ⟨rfl, rfl, rfl, rfl⟩

theorem forall₂_sameFrame_refl (l : List Account) : List.Forall₂ sameFrame l l := by
  induction l with
  | nil => exact List.Forall₂.nil
  | cons a rest ih => exact List.Forall₂.cons (sameFrame_refl a) ih

theorem greedyTier_frame (dst : String) (amount : ℚ) (accs : List Account) :
    ∀ collected ts t r,
      greedyTier dst amount collected ts accs = Except.ok (t, r) →
      List.Forall₂ sameFrame accs r := by
  induction accs with
  | nil =>
    intro collected ts t r h
    rw [greedyTier] at h
    split_ifs at h with hc
    · simp only [Except.ok.injEq, Prod.mk.injEq] at h
      rw [← h.2]; exact List.Forall₂.nil
  | cons acc rest ih =>
    intro collected ts t r h
    rw [greedyTier] at h
    split_ifs at h with h1 h2 h3 h4
    · simp only [Except.ok.injEq, Prod.mk.injEq] at h
      rw [← h.2]; exact forall₂_sameFrame_refl _
    · rw [consAccount_eq_ok] at h
      obtain ⟨r0, hrec, hr⟩ := h
      rw [hr]
      exact List.Forall₂.cons (sameFrame_update acc _) (ih _ _ t r0 hrec)
    · rw [consAccount_eq_ok] at h
      obtain ⟨r0, hrec, hr⟩ := h
      rw [hr]
      exact List.Forall₂.cons (sameFrame_update acc _) (ih _ _ t r0 hrec)
    · rw [consAccount_eq_ok] at h
      obtain ⟨r0, hrec, hr⟩ := h
      rw [hr]
      exact List.Forall₂.cons (sameFrame_refl acc) (ih collected ts t r0 hrec)

theorem fullSweepTier_sum (dst : String) (accs : List Account)
    (h : ∀ a ∈ accs, 0 ≤ a.tokens) :
    (((fullSweepTier dst accs).1).map Transfer.amount).sum = walletTokens accs := by
  induction accs with
  | nil => simp [fullSweepTier, walletTokens]
  | cons acc rest ih =>
    rw [fullSweepTier]
    by_cases h1 : 0 < acc.tokens
    · rw [if_pos h1]
      simp only [List.map_cons, List.sum_cons]
      rw [ih (fun a ha => h a (List.mem_cons_of_mem acc ha))]
      simp [walletTokens]
    · rw [if_neg h1]
      have h0 : acc.tokens = 0 :=
        le_antisymm (not_lt.mp h1) (h acc (List.mem_cons_self acc rest))
      rw [ih (fun a ha => h a (List.mem_cons_of_mem acc ha))]
      simp [walletTokens, h0]

theorem fullSweepTier_amount_le (dst : String) (accs : List Account) :
    ∀ t ∈ (fullSweepTier dst accs).1, t.amount ≤ t.src.tokens := by
  induction accs with
  | nil => simp [fullSweepTier]
  | cons acc rest ih =>
    rw [fullSweepTier]
    by_cases h1 : 0 < acc.tokens
    · rw [if_pos h1]
      intro t ht
      rcases List.mem_cons.mp ht with ht | ht
      · rw [ht]
      · exact ih t ht
    · rw [if_neg h1]
      exact ih

theorem fullSweepTier_nonneg (dst : String) (accs : List Account)
    (h : ∀ a ∈ accs, 0 ≤ a.tokens) :
    ∀ a ∈ (fullSweepTier dst accs).2, 0 ≤ a.tokens := by
  induction accs with
  | nil => simp [fullSweepTier]
  | cons acc rest ih =>
    rw [fullSweepTier]
    by_cases h1 : 0 < acc.tokens
    · rw [if_pos h1]
      intro a ha
      rcases List.mem_cons.mp ha with ha | ha
      · rw [ha]
      · exact ih (fun b hb => h b (List.mem_cons_of_mem acc hb)) a ha
    · rw [if_neg h1]
      intro a ha
      rcases List.mem_cons.mp ha with ha | ha
      · rw [ha]; exact h acc (List.mem_cons_self acc rest)
      · exact ih (fun b hb => h b (List.mem_cons_of_mem acc hb)) a ha

theorem fullSweepTier_frame (dst : String) (accs : List Account) :
    List.Forall₂ sameFrame accs (fullSweepTier dst accs).2 := by
  induction accs with
  | nil => simp [fullSweepTier]
  | cons acc rest ih =>
    rw [fullSweepTier]
    by_cases h1 : 0 < acc.tokens
    · rw [if_pos h1]
      exact List.Forall₂.cons (sameFrame_update acc 0) ih
    · rw [if_neg h1]
      exact List.Forall₂.cons (sameFrame_refl acc) ih

theorem exactMatchTier_sum (dst : String) (amount : ℚ) (accs : List Account)
    (ts : List Transfer) (accs2 : List Account)
    (h : exactMatchTier dst amount accs = some (ts, accs2)) :
    (ts.map Transfer.amount).sum = amount := by
  obtain ⟨pre, a, post, _, _, _, _, hts, _⟩ := exactMatchTier_eq_some dst amount accs ts accs2 h
  rw [hts]; simp

theorem exactMatchTier_amount_le (dst : String) (amount : ℚ) (accs : List Account)
    (ts : List Transfer) (accs2 : List Account)
    (h : exactMatchTier dst amount accs = some (ts, accs2)) :
    ∀ t ∈ ts, t.amount ≤ t.src.tokens := by
  obtain ⟨pre, a, post, _, _, heq, _, hts, _⟩ := exactMatchTier_eq_some dst amount accs ts accs2 h
  rw [hts]
  intro t ht
  rw [List.mem_singleton.mp ht]
  show amount ≤ a.tokens
  rw [heq]

theorem exactMatchTier_nonneg (dst : String) (amount : ℚ) (accs : List Account)
    (ts : List Transfer) (accs2 : List Account)
    (hnn : ∀ a ∈ accs, 0 ≤ a.tokens)
    (h : exactMatchTier dst amount accs = some (ts, accs2)) :
    ∀ a ∈ accs2, 0 ≤ a.tokens := by
  obtain ⟨pre, a, post, hsplit, _, heq, _, _, haccs⟩ :=
    exactMatchTier_eq_some dst amount accs ts accs2 h
  rw [haccs]
  intro b hb
  rcases List.mem_append.mp hb with hb | hb
  · exact hnn b (hsplit ▸ List.mem_append_left _ hb)
  · rcases List.mem_cons.mp hb with hb | hb
    · rw [hb]
      show (0:ℚ) ≤ a.tokens - amount
      rw [heq]; simp
    · exact hnn b (hsplit ▸ List.mem_append_right _ (List.mem_cons_of_mem a hb))

theorem exactMatchTier_frame (dst : String) (amount : ℚ) (accs : List Account)
    (ts : List Transfer) (accs2 : List Account)
    (h : exactMatchTier dst amount accs = some (ts, accs2)) :
    List.Forall₂ sameFrame accs accs2 := by
  obtain ⟨pre, a, post, hsplit, _, _, _, _, haccs⟩ :=
    exactMatchTier_eq_some dst amount accs ts accs2 h
  rw [hsplit, haccs]
  exact List.rel_append (forall₂_sameFrame_refl pre)
    (List.Forall₂.cons (sameFrame_update a _) (forall₂_sameFrame_refl post))

theorem step_eq_ok (dst : String) (amount : ℚ) (accs : List Account)
    (ts : List Transfer) (accs2 : List Account)
    (h : step dst amount accs = Except.ok (ts, accs2)) :
    ¬ amount ≤ 0 ∧
    (exactMatchTier dst amount accs = some (ts, accs2) ∨
     (exactMatchTier dst amount accs = none ∧ amount = walletTokens accs ∧
       (ts, accs2) = fullSweepTier dst accs) ∨
     (exactMatchTier dst amount accs = none ∧ amount ≠ walletTokens accs ∧
       greedyTier dst amount 0 [] accs = Except.ok (ts, accs2))) := by
  rw [step] at h
  by_cases h0 : amount ≤ 0
  · rw [if_pos h0] at h
    exact absurd h (by simp)
  · rw [if_neg h0] at h
    refine ⟨h0, ?_⟩
    cases hem : exactMatchTier dst amount accs with
    | some p =>
      rw [hem] at h
      replace h : Except.ok p = Except.ok (ts, accs2) := h
      simp only [Except.ok.injEq] at h
      exact Or.inl (by rw [h])
    | none =>
      rw [hem] at h
      replace h : (if amount = walletTokens accs then Except.ok (fullSweepTier dst accs)
                   else greedyTier dst amount 0 [] accs) = Except.ok (ts, accs2) := h
      by_cases h2 : amount = walletTokens accs
      · rw [if_pos h2] at h
        simp only [Except.ok.injEq] at h
        exact Or.inr (Or.inl ⟨rfl, h2, h.symm⟩)
      · rw [if_neg h2] at h
        exact Or.inr (Or.inr ⟨rfl, h2, h⟩)

theorem step_sum (dst : String) (amount : ℚ) (accs : List Account)
    (ts : List Transfer) (accs2 : List Account)
    (hnn : ∀ a ∈ accs, 0 ≤ a.tokens)
    (h : step dst amount accs = Except.ok (ts, accs2)) :
    (ts.map Transfer.amount).sum = amount := by
  obtain ⟨h0, hem | ⟨hem, h2, h3⟩ | ⟨hem, h2, h3⟩⟩ := step_eq_ok dst amount accs ts accs2 h
  · exact exactMatchTier_sum dst amount accs ts accs2 hem
  · have hts : ts = (fullSweepTier dst accs).1 := congrArg Prod.fst h3
    rw [hts, fullSweepTier_sum dst accs hnn]
    exact h2.symm
  · have := greedyTier_sum dst amount accs 0 [] ts accs2 h3
    simpa using this

theorem step_amount_le (dst : String) (amount : ℚ) (accs : List Account)
    (ts : List Transfer) (accs2 : List Account)
    (h : step dst amount accs = Except.ok (ts, accs2)) :
    ∀ t ∈ ts, t.amount ≤ t.src.tokens := by
  obtain ⟨h0, hem | ⟨hem, h2, h3⟩ | ⟨hem, h2, h3⟩⟩ := step_eq_ok dst amount accs ts accs2 h
  · exact exactMatchTier_amount_le dst amount accs ts accs2 hem
  · have hts : ts = (fullSweepTier dst accs).1 := congrArg Prod.fst h3
    rw [hts]
    exact fullSweepTier_amount_le dst accs
  · exact greedyTier_amount_le dst amount accs 0 [] ts accs2 (by simp) h3

theorem step_nonneg (dst : String) (amount : ℚ) (accs : List Account)
    (ts : List Transfer) (accs2 : List Account)
    (hnn : ∀ a ∈ accs, 0 ≤ a.tokens)
    (h : step dst amount accs = Except.ok (ts, accs2)) :
    ∀ a ∈ accs2, 0 ≤ a.tokens := by
  obtain ⟨h0, hem | ⟨hem, h2, h3⟩ | ⟨hem, h2, h3⟩⟩ := step_eq_ok dst amount accs ts accs2 h
  · exact exactMatchTier_nonneg dst amount accs ts accs2 hnn hem
  · have haccs : accs2 = (fullSweepTier dst accs).2 := congrArg Prod.snd h3
    rw [haccs]
    exact fullSweepTier_nonneg dst accs hnn
  · exact greedyTier_nonneg dst amount accs 0 [] ts accs2 hnn h3

theorem step_frame (dst : String) (amount : ℚ) (accs : List Account)
    (ts : List Transfer) (accs2 : List Account)
    (h : step dst amount accs = Except.ok (ts, accs2)) :
    List.Forall₂ sameFrame accs accs2 := by
  obtain ⟨h0, hem | ⟨hem, h2, h3⟩ | ⟨hem, h2, h3⟩⟩ := step_eq_ok dst amount accs ts accs2 h
  · exact exactMatchTier_frame dst amount accs ts accs2 hem
  · have haccs : accs2 = (fullSweepTier dst accs).2 := congrArg Prod.snd h3
    rw [haccs]
    exact fullSweepTier_frame dst accs
  · exact greedyTier_frame dst amount accs 0 [] ts accs2 h3

theorem generateSteps_cons_ok (p : Payout) (ps : List Payout) (accs : List Account)
    (gs : List (List Transfer)) (accs3 : List Account)
    (h : generateSteps (p :: ps) accs = Except.ok (gs, accs3)) :
    ∃ ts accs2 gs0, step p.dest p.amount accs = Except.ok (ts, accs2) ∧
      generateSteps ps accs2 = Except.ok (gs0, accs3) ∧ gs = ts :: gs0 := by
  rw [generateSteps] at h
  cases hstep : step p.dest p.amount accs with
  | error e =>
    rw [hstep] at h
    exact absurd h (by simp)
  | ok q =>
    obtain ⟨ts, accs2⟩ := q
    rw [hstep] at h
    replace h : (match generateSteps ps accs2 with
                 | Except.ok (groups, accounts3) => Except.ok (ts :: groups, accounts3)
                 | Except.error e => Except.error e) = Except.ok (gs, accs3) := h
    cases hrec : generateSteps ps accs2 with
    | error e =>
      rw [hrec] at h
      exact absurd h (by simp)
    | ok q2 =>
      obtain ⟨gs0, a3⟩ := q2
      rw [hrec] at h
      replace h : Except.ok (ts :: gs0, a3) = Except.ok (gs, accs3) := h
      simp only [Except.ok.injEq, Prod.mk.injEq] at h
      refine ⟨ts, accs2, gs0, rfl, ?_, h.1.symm⟩
      rw [hrec, h.2]

theorem forall₂_sameFrame_trans {l1 l2 l3 : List Account}
    (h1 : List.Forall₂ sameFrame l1 l2) (h2 : List.Forall₂ sameFrame l2 l3) :
    List.Forall₂ sameFrame l1 l3 := by
  induction h1 generalizing l3 with
  | nil =>
    cases h2
    exact List.Forall₂.nil
  | cons hab hrest ih =>
    cases h2 with
    | cons hbc hrest2 =>
      exact List.Forall₂.cons
        ⟨hab.1.trans hbc.1, hab.2.1.trans hbc.2.1,
         hab.2.2.1.trans hbc.2.2.1, hab.2.2.2.trans hbc.2.2.2⟩ (ih hrest2)

/-- C1: every plan produced by `generate_steps` pays each request exactly: for
each payout request, the transfer amounts of its group sum to the request's
`amount` (token balances fetched from the chain are non-negative). -/
theorem generateSteps_group_sums (payouts : List Payout) :
    ∀ accounts groups rest,
      (∀ a ∈ accounts, 0 ≤ a.tokens) →
      generateSteps payouts accounts = Except.ok (groups, rest) →
      List.Forall₂ (fun g p => (g.map Transfer.amount).sum = p.amount) groups payouts := by
  induction payouts with
  | nil =>
    intro accounts groups rest hnn h
    rw [generateSteps] at h
    simp only [Except.ok.injEq, Prod.mk.injEq] at h
    rw [← h.1]
    exact List.Forall₂.nil
  | cons p ps ih =>
    intro accounts groups rest hnn h
    obtain ⟨ts, accs2, gs0, hstep, hrec, hgs⟩ := generateSteps_cons_ok p ps accounts groups rest h
    rw [hgs]
    exact List.Forall₂.cons (step_sum p.dest p.amount accounts ts accs2 hnn hstep)
      (ih accs2 gs0 rest (step_nonneg p.dest p.amount accounts ts accs2 hnn hstep) hrec)





theorem w1_generateSteps_eval :
    generateSteps w1Payouts w1Accounts = Except.ok (w1Plan, w1Rest) := by
  norm_num [w1Payouts, w1Accounts, w1Plan, w1Rest, generateSteps, step, exactMatchTier,
    fullSweepTier, greedyTier, walletTokens, consAccount, consAccountO]

theorem w1_nonneg : ∀ a ∈ w1Accounts, 0 ≤ a.tokens := by
  norm_num [w1Accounts]

/-- Witness for C1 at a concrete two-request payout. -/
theorem generateSteps_group_sums_witness :
    (∀ a ∈ w1Accounts, 0 ≤ a.tokens) ∧
    generateSteps w1Payouts w1Accounts = Except.ok (w1Plan, w1Rest) ∧
    List.Forall₂ (fun g p => (g.map Transfer.amount).sum = p.amount) w1Plan w1Payouts :=
  ⟨w1_nonneg, w1_generateSteps_eval,
   generateSteps_group_sums w1Payouts w1Accounts w1Plan w1Rest w1_nonneg w1_generateSteps_eval⟩

/-- C7: in every plan produced by `generate_steps`, no transfer's amount
exceeds the token balance of the `src` snapshot copied at allocation time. -/
theorem generateSteps_amount_le (payouts : List Payout) :
    ∀ accounts groups rest,
      generateSteps payouts accounts = Except.ok (groups, rest) →
      ∀ g ∈ groups, ∀ t ∈ g, t.amount ≤ t.src.tokens := by
  induction payouts with
  | nil =>
    intro accounts groups rest h
    rw [generateSteps] at h
    simp only [Except.ok.injEq, Prod.mk.injEq] at h
    rw [← h.1]
    simp
  | cons p ps ih =>
    intro accounts groups rest h
    obtain ⟨ts, accs2, gs0, hstep, hrec, hgs⟩ := generateSteps_cons_ok p ps accounts groups rest h
    rw [hgs]
    intro g hg
    rcases List.mem_cons.mp hg with hg | hg
    · rw [hg]
      exact step_amount_le p.dest p.amount accounts ts accs2 hstep
    · exact ih accs2 gs0 rest hrec g hg

/-- Witness for C7 at the same concrete plan. -/
theorem generateSteps_amount_le_witness :
    generateSteps w1Payouts w1Accounts = Except.ok (w1Plan, w1Rest) ∧
    ∀ g ∈ w1Plan, ∀ t ∈ g, t.amount ≤ t.src.tokens :=
  ⟨w1_generateSteps_eval,
   generateSteps_amount_le w1Payouts w1Accounts w1Plan w1Rest w1_generateSteps_eval⟩

/-- C10: a planning session only ever mutates the `tokens` field: the final
account list of `generate_steps` agrees with the input list pointwise on
`addr`, `currency`, `bandwidth` and `bandwidth_limit`. -/
theorem generateSteps_frame (payouts : List Payout) :
    ∀ accounts groups rest,
      generateSteps payouts accounts = Except.ok (groups, rest) →
      List.Forall₂ sameFrame accounts rest := by
  induction payouts with
  | nil =>
    intro accounts groups rest h
    rw [generateSteps] at h
    simp only [Except.ok.injEq, Prod.mk.injEq] at h
    rw [← h.2]
    exact forall₂_sameFrame_refl accounts
  | cons p ps ih =>
    intro accounts groups rest h
    obtain ⟨ts, accs2, gs0, hstep, hrec, hgs⟩ := generateSteps_cons_ok p ps accounts groups rest h
    exact forall₂_sameFrame_trans (step_frame p.dest p.amount accounts ts accs2 hstep)
      (ih accs2 gs0 rest hrec)

/-- Witness for C10 at the same concrete plan. -/
theorem generateSteps_frame_witness :
    generateSteps w1Payouts w1Accounts = Except.ok (w1Plan, w1Rest) ∧
    List.Forall₂ sameFrame w1Accounts w1Rest :=
  ⟨w1_generateSteps_eval,
   generateSteps_frame w1Payouts w1Accounts w1Plan w1Rest w1_generateSteps_eval⟩

/-- C8: the defensive `AllocationOverrun` branch of the greedy tier is
unreachable: whenever the loop starts with `collected ≤ amount` (as `step`
does, entering with `collected = 0 < amount`) it never raises
`allocationOverrunMsg`, and `step` itself never returns that error. -/
theorem allocation_overrun_unreachable (dst : String) (amount collected : ℚ)
    (ts : List Transfer) (accs : List Account) :
    (collected ≤ amount →
      greedyTier dst amount collected ts accs ≠ Except.error allocationOverrunMsg) ∧
    step dst amount accs ≠ Except.error allocationOverrunMsg := by
  constructor
  · exact fun hle => greedyTier_no_overrun dst amount accs collected ts hle
  · rw [step]
    by_cases h0 : amount ≤ 0
    · rw [if_pos h0]
      simp only [ne_eq, Except.error.injEq]
      intro hmsg
      exact absurd hmsg (by decide)
    · rw [if_neg h0]
      cases hem : exactMatchTier dst amount accs with
      | some p =>
        intro hc
        replace hc : Except.ok p = Except.error allocationOverrunMsg := hc
        simp at hc
      | none =>
        intro hc
        replace hc : (if amount = walletTokens accs then Except.ok (fullSweepTier dst accs)
                      else greedyTier dst amount 0 [] accs) =
                     Except.error allocationOverrunMsg := hc
        by_cases h2 : amount = walletTokens accs
        · rw [if_pos h2] at hc
          simp at hc
        · rw [if_neg h2] at hc
          exact greedyTier_no_overrun dst amount accs 0 []
            (le_of_lt (not_le.mp h0)) hc

/-- Witness for C8 at a concrete loop state. -/
theorem allocation_overrun_unreachable_witness :
    (0:ℚ) ≤ 1 ∧
    greedyTier "X" 1 0 [] [] ≠ Except.error allocationOverrunMsg ∧
    step "X" 1 [] ≠ Except.error allocationOverrunMsg :=
  ⟨by norm_num,
   (allocation_overrun_unreachable "X" 1 0 [] []).1 (by norm_num),
   (allocation_overrun_unreachable "X" 1 0 [] []).2⟩

/-- C9: with a positive request amount and some account holding exactly that
amount, `step` returns the single EXACT_MATCH (`'1 to 1'`) transfer sourced
from the first such account in the current order, and that account's token
balance becomes zero. -/
theorem step_exact_match_first (dst : String) (amount : ℚ) (accounts : List Account)
    (hpos : 0 < amount) (hex : ∃ a ∈ accounts, a.tokens = amount) :
    ∃ pre a post, accounts = pre ++ a :: post ∧ a.tokens = amount ∧
      (∀ b ∈ pre, b.tokens ≠ amount) ∧
      step dst amount accounts =
        Except.ok ([{ src := a, dst := dst, amount := amount, debug := "1 to 1" }],
          pre ++ { a with tokens := 0 } :: post) := by
  obtain ⟨a0, ha0, heq0⟩ := hex
  have hne := exactMatchTier_ne_none dst amount accounts a0 ha0 (heq0 ▸ hpos) heq0
  obtain ⟨p, hp⟩ := Option.ne_none_iff_exists'.mp hne
  obtain ⟨ts, accs2⟩ := p
  obtain ⟨pre, a, post, hsplit, hposA, heqA, hpre, hts, haccs⟩ :=
    exactMatchTier_eq_some dst amount accounts ts accs2 hp
  refine ⟨pre, a, post, hsplit, heqA, ?_, ?_⟩
  · intro b hb hbeq
    exact hpre b hb ⟨hbeq ▸ hpos, hbeq⟩
  · rw [step, if_neg (not_le.mpr hpos), hp]
    show Except.ok (ts, accs2) = _
    rw [hts, haccs]
    have hz : a.tokens - amount = 0 := by rw [heqA]; ring
    rw [hz]


/-- Witness for C9: the second account matches exactly. -/
theorem step_exact_match_first_witness :
    0 < (100:ℚ) ∧ (∃ a ∈ w9Accounts, a.tokens = 100) ∧
    (∃ pre a post, w9Accounts = pre ++ a :: post ∧ a.tokens = 100 ∧
      (∀ b ∈ pre, b.tokens ≠ 100) ∧
      step "X" 100 w9Accounts =
        Except.ok ([{ src := a, dst := "X", amount := 100, debug := "1 to 1" }],
          pre ++ { a with tokens := 0 } :: post)) := by
  have h1 : 0 < (100:ℚ) := by norm_num
  have h2 : ∃ a ∈ w9Accounts, a.tokens = 100 :=
    ⟨⟨"A", 100, 0, 0, 1500⟩, by simp [w9Accounts], rfl⟩
  exact ⟨h1, h2, step_exact_match_first "X" 100 w9Accounts h1 h2⟩



/-- Counterexample for C4: a payout list whose total is `-1` (violating
`total > 0`) passes `check_payout_list` against a 5-token wallet. -/
theorem check_payout_list_negative_total_accepted :
    payoutTotal c4Payouts = -1 ∧ ¬ (0 < payoutTotal c4Payouts) ∧
    check_payout_list c4Payouts c4Accounts = Except.ok () := by
  refine ⟨?_, ?_, ?_⟩ <;>
    norm_num [c4Payouts, c4Accounts, payoutTotal, check_payout_list, walletTokens]

/-- C4 (amended): `check_payout_list` fails with `emptyPayoutMsg` exactly on a
zero total, with `insufficientFundsMsg` exactly on a nonzero total exceeding
the wallet's token balance, and accepts everything else — including strictly
negative totals. -/
theorem check_payout_list_characterization (payouts : List Payout) (accounts : List Account) :
    (check_payout_list payouts accounts = Except.error emptyPayoutMsg ↔
      payoutTotal payouts = 0) ∧
    (check_payout_list payouts accounts = Except.error insufficientFundsMsg ↔
      payoutTotal payouts ≠ 0 ∧ walletTokens accounts < payoutTotal payouts) ∧
    (check_payout_list payouts accounts = Except.ok () ↔
      payoutTotal payouts ≠ 0 ∧ payoutTotal payouts ≤ walletTokens accounts) := by
  have hmsg : emptyPayoutMsg ≠ insufficientFundsMsg := by decide
  unfold check_payout_list
  by_cases h0 : payoutTotal payouts = 0
  · rw [if_pos h0]
    refine ⟨iff_of_true rfl h0, iff_of_false ?_ ?_, iff_of_false ?_ ?_⟩
    · intro hc
      exact hmsg (Except.error.inj hc)
    · rintro ⟨hne, _⟩
      exact hne h0
    · intro hc
      exact Except.noConfusion hc
    · rintro ⟨hne, _⟩
      exact hne h0
  · rw [if_neg h0]
    by_cases h1 : walletTokens accounts < payoutTotal payouts
    · rw [if_pos h1]
      refine ⟨iff_of_false ?_ ?_, iff_of_true rfl ⟨h0, h1⟩, iff_of_false ?_ ?_⟩
      · intro hc
        exact hmsg (Except.error.inj hc).symm
      · intro hz
        exact h0 hz
      · intro hc
        exact Except.noConfusion hc
      · rintro ⟨_, hle⟩
        exact absurd h1 (not_lt.mpr hle)
    · rw [if_neg h1]
      refine ⟨iff_of_false ?_ ?_, iff_of_false ?_ ?_, iff_of_true rfl ⟨h0, not_lt.mp h1⟩⟩
      · intro hc
        exact Except.noConfusion hc
      · intro hz
        exact h0 hz
      · intro hc
        exact Except.noConfusion hc
      · rintro ⟨_, hlt⟩
        exact h1 hlt


/-- Counterexample for C3: the activation surcharge is the hardcoded literal
`2`, not a configuration input — the claimed formula with a freely chosen
`activationFee` fails already at `activationFee = 0` on a one-transfer plan. -/
theorem estimate_fee_activation_hardcoded :
    ¬ ∀ activationFee : ℚ, estimate_fee 0 [] [] c3Plan =
        Except.ok (transferCount c3Plan, (transferCount c3Plan : ℚ) * (0 + activationFee)) := by
  intro hall
  have heval : estimate_fee 0 [] [] c3Plan = Except.ok (1, 2) := by
    norm_num [estimate_fee, c3Plan, transferCount]
  have h0 := hall 0
  rw [heval] at h0
  simp only [Except.ok.injEq, Prod.mk.injEq] at h0
  norm_num [transferCount, c3Plan] at h0

/-- C3 (amended): on any already-generated plan, `estimate_fee` returns the
flattened transfer count and `count * (txFee + 2)`, for any configured
`TX_FEE`; the `2` is the hardcoded `activation_and_transfer_fee`. -/
theorem estimate_fee_formula (txFee : ℚ) (payouts : List Payout) (accounts : List Account)
    (steps : List (List Transfer)) (hne : steps ≠ []) :
    estimate_fee txFee payouts accounts steps =
      Except.ok (transferCount steps, (transferCount steps : ℚ) * (txFee + 2)) := by
  cases steps with
  | nil => exact absurd rfl hne
  | cons s ss => rfl

/-- Witness for C3 at a concrete one-transfer plan and `TX_FEE = 5`. -/
theorem estimate_fee_formula_witness :
    c3Plan ≠ ([] : List (List Transfer)) ∧
    estimate_fee 5 [] [] c3Plan =
      Except.ok (transferCount c3Plan, (transferCount c3Plan : ℚ) * (5 + 2)) :=
  ⟨by simp [c3Plan], estimate_fee_formula 5 [] [] c3Plan (by simp [c3Plan])⟩


/-- Counterexample for C2: with `TX_FEE = 10`, one under-funded source whose
native balance is 5 (shortfall 5) and a fee-deposit balance of 7, the deposit
covers the sum of shortfalls, yet `seed_payout_fees` fails fatally — the code
compares against `count * TX_FEE = 10`, not the sum of shortfalls. -/
theorem seed_check_not_sum_of_shortfalls :
    specSumShortfalls 10 c2Plan = 5 ∧ ¬ ((7:ℚ) < specSumShortfalls 10 c2Plan) ∧
    seed_payout_fees 10 7 (fun _ => Except.ok "tx") c2Plan =
      Except.error insufficientSeedMsg := by
  refine ⟨?_, ?_, ?_⟩ <;>
    norm_num [specSumShortfalls, accountsNeedSeeding, c2Plan, seed_payout_fees,
      seedNeedCurrency]

/-- C2 (amended): `seed_payout_fees` fails fatally with `insufficientSeedMsg`,
returning no seeding result and attempting no transfer, exactly when the
fee-deposit balance is below `count-of-under-funded-occurrences * TX_FEE`;
otherwise it proceeds to seed. -/
theorem seed_payout_fees_check (txFee bal : ℚ) (net : Account → Except String String)
    (steps : List (List Transfer)) :
    (bal < seedNeedCurrency txFee steps →
      seed_payout_fees txFee bal net steps = Except.error insufficientSeedMsg) ∧
    (¬ bal < seedNeedCurrency txFee steps →
      seed_payout_fees txFee bal net steps =
        Except.ok ((accountsNeedSeeding txFee steps).map (seedOne net))) := by
  constructor
  · intro h
    unfold seed_payout_fees
    rw [if_pos h]
  · intro h
    unfold seed_payout_fees
    rw [if_neg h]

/-- Witness for C2 on both sides of the threshold check. -/
theorem seed_payout_fees_check_witness :
    (7:ℚ) < seedNeedCurrency 10 c2Plan ∧
    seed_payout_fees 10 7 (fun _ => Except.ok "tx") c2Plan =
      Except.error insufficientSeedMsg ∧
    ¬ (100:ℚ) < seedNeedCurrency 10 c2Plan ∧
    seed_payout_fees 10 100 (fun _ => Except.ok "tx") c2Plan =
      Except.ok ((accountsNeedSeeding 10 c2Plan).map (seedOne (fun _ => Except.ok "tx"))) := by
  have h1 : (7:ℚ) < seedNeedCurrency 10 c2Plan := by
    norm_num [seedNeedCurrency, accountsNeedSeeding, c2Plan]
  have h2 : ¬ (100:ℚ) < seedNeedCurrency 10 c2Plan := by
    norm_num [seedNeedCurrency, accountsNeedSeeding, c2Plan]
  exact ⟨h1, (seed_payout_fees_check 10 7 (fun _ => Except.ok "tx") c2Plan).1 h1,
    h2, (seed_payout_fees_check 10 100 (fun _ => Except.ok "tx") c2Plan).2 h2⟩

/-- Counterexample for C5: in the plan generated for requests 70 then 30 from
a single 100-token account, address `A` sources two transfers; with its native
balance 0 below `TX_FEE = 10` it occurs twice in `accounts_need_seeding`, and
two seeding transfers are issued to the same address — not a distinct set with
at most one transfer per account. -/
theorem seed_duplicate_address :
    generateSteps w1Payouts w1Accounts = Except.ok (w1Plan, w1Rest) ∧
    (accountsNeedSeeding 10 w1Plan).map Account.addr = ["A", "A"] ∧
    seed_payout_fees 10 100 (fun _ => Except.ok "tx") w1Plan =
      Except.ok [some ⟨⟨"A", 100, 0, 0, 1500⟩, "tx"⟩, some ⟨⟨"A", 30, 0, 0, 1500⟩, "tx"⟩] := by
  refine ⟨w1_generateSteps_eval, ?_, ?_⟩ <;>
    norm_num [accountsNeedSeeding, w1Plan, seed_payout_fees, seedNeedCurrency, seedOne]

/-- C5 (amended): `seed_payout_fees` collects one source-account entry per
TransferStep whose source's native balance is below the threshold (the same
address may occur once per such step) and issues one seeding transfer per
entry; no entry ever has a native balance meeting the threshold. -/
theorem seed_per_occurrence (txFee bal : ℚ) (net : Account → Except String String)
    (steps : List (List Transfer)) (h : ¬ bal < seedNeedCurrency txFee steps) :
    seed_payout_fees txFee bal net steps =
      Except.ok ((accountsNeedSeeding txFee steps).map (seedOne net)) ∧
    (∀ a ∈ accountsNeedSeeding txFee steps, a.currency < txFee) ∧
    (accountsNeedSeeding txFee steps).length =
      ((steps.flatten).filter (fun t => t.src.currency < txFee)).length := by
  refine ⟨?_, ?_, ?_⟩
  · unfold seed_payout_fees
    rw [if_neg h]
  · intro a ha
    unfold accountsNeedSeeding at ha
    simpa using (List.mem_filter.mp ha).2
  · unfold accountsNeedSeeding
    rw [List.filter_map, List.length_map]
    rfl

/-- Witness for C5 at the concrete duplicated-source plan. -/
theorem seed_per_occurrence_witness :
    ¬ (100:ℚ) < seedNeedCurrency 10 w1Plan ∧
    (seed_payout_fees 10 100 (fun _ => Except.ok "tx") w1Plan =
       Except.ok ((accountsNeedSeeding 10 w1Plan).map (seedOne (fun _ => Except.ok "tx"))) ∧
     (∀ a ∈ accountsNeedSeeding 10 w1Plan, a.currency < 10) ∧
     (accountsNeedSeeding 10 w1Plan).length =
       ((w1Plan.flatten).filter (fun t => t.src.currency < 10)).length) := by
  have h : ¬ (100:ℚ) < seedNeedCurrency 10 w1Plan := by
    norm_num [seedNeedCurrency, accountsNeedSeeding, w1Plan]
  exact ⟨h, seed_per_occurrence 10 100 (fun _ => Except.ok "tx") w1Plan h⟩





/-- Counterexample for C6: when seeding address `A` fails, the batch continues
and `B` is still seeded, but the failure is recorded as Python's `None` — an
entry that names no `SeedResult` and hence identifies no address. -/
theorem seed_failure_recorded_as_none :
    seed_payout_fees 10 100 c6Net c6Plan =
      Except.ok [none, some ⟨c6AccB, "tx2"⟩] ∧
    ¬ ∃ r : SeedResult, seed_payout_fees 10 100 c6Net c6Plan =
        Except.ok [some r, some ⟨c6AccB, "tx2"⟩] := by
  have heval : seed_payout_fees 10 100 c6Net c6Plan =
      Except.ok [none, some ⟨c6AccB, "tx2"⟩] := by
    norm_num [seed_payout_fees, seedNeedCurrency, accountsNeedSeeding, c6Plan,
      c6AccA, c6AccB, seedOne, c6Net]
    rw [if_neg (by decide : ¬ ("B":String) = "A")]
  refine ⟨heval, ?_⟩
  rintro ⟨r, hr⟩
  rw [heval] at hr
  simp at hr

/-- C6 (amended): when the deposit check passes, `seed_payout_fees` returns one
entry per under-funded source occurrence, computed independently per account by
the `seed` worker: a successful broadcast yields `some` record carrying that
account and the transaction id, and a failure is caught and recorded as `none`
without affecting any other entry. -/
theorem seed_failures_isolated (txFee bal : ℚ) (net : Account → Except String String)
    (steps : List (List Transfer)) (h : ¬ bal < seedNeedCurrency txFee steps) :
    seed_payout_fees txFee bal net steps =
      Except.ok ((accountsNeedSeeding txFee steps).map (seedOne net)) ∧
    (∀ acc txid, net acc = Except.ok txid → seedOne net acc = some ⟨acc, txid⟩) ∧
    (∀ acc e, net acc = Except.error e → seedOne net acc = none) := by
  refine ⟨?_, ?_, ?_⟩
  · unfold seed_payout_fees
    rw [if_neg h]
  · intro acc txid hnet
    unfold seedOne
    rw [hnet]
  · intro acc e hnet
    unfold seedOne
    rw [hnet]

/-- Witness for C6 at the concrete mixed-outcome plan. -/
theorem seed_failures_isolated_witness :
    ¬ (100:ℚ) < seedNeedCurrency 10 c6Plan ∧
    (seed_payout_fees 10 100 c6Net c6Plan =
       Except.ok ((accountsNeedSeeding 10 c6Plan).map (seedOne c6Net)) ∧
     (∀ acc txid, c6Net acc = Except.ok txid → seedOne c6Net acc = some ⟨acc, txid⟩) ∧
     (∀ acc e, c6Net acc = Except.error e → seedOne c6Net acc = none)) := by
  have h : ¬ (100:ℚ) < seedNeedCurrency 10 c6Plan := by
    norm_num [seedNeedCurrency, accountsNeedSeeding, c6Plan, c6AccA, c6AccB]
  exact ⟨h, seed_failures_isolated 10 100 c6Net c6Plan h⟩
